import Mathlib

/-!
Verification of the superscore filestore backend
(`src/superscore/backends/filestore.py` and `src/superscore/backends/core.py`).

The backend persists a nested `Root` document to a JSON file and keeps a
flat, identifier-indexed entry cache together with a reference-link cache.
Stateful Python code is embedded as explicit state passing: the filesystem
is an association list from paths to file data, and each method returns the
updated backend state and filesystem.  Points where real I/O can fail are
made explicit through a fault parameter enumerating the failure sites of
`store`.
-/

set_option maxHeartbeats 1000000

/-- Entry identifiers: Python `uuid.UUID` values, modelled as naturals. -/
abbrev UUID := Nat

/-- Modelled from the spec: the entry model lives in `superscore.model`,
which is not under src/.  Per the spec (§3), an `Entry` is a node with a
unique identifier, an optional ordered sequence of owned child entries
(`getattr(entry, 'children', [])` yields `[]` for childless kinds), and
typed fields some of which are non-owning references to other entries; a
reference field holds either a direct `Entry` or an already-swapped bare
identifier (`Entry ⊕ UUID`).  `data` stands for the remaining
non-reference fields. -/
inductive Entry : Type where
  | mk (uuid : UUID) (data : Nat) (children : List Entry) (refs : List (Entry ⊕ UUID))

/-- The identifier of an entry. -/
def Entry.uuid : Entry → UUID
  | .mk u _ _ _ => u

/-- The owned children of an entry. -/
def Entry.children : Entry → List Entry
  | .mk _ _ cs _ => cs

/-- The reference fields of an entry. -/
def Entry.refs : Entry → List (Entry ⊕ UUID)
  | .mk _ _ _ rs => rs

/-- `Root` (from `superscore.model`, modelled from the spec §3): the sole
unit of durable storage, holding an ordered sequence of top-level entries. -/
structure Root where
  entries : List Entry

/-- `Root()` — the empty root constructed with all defaults. -/
def Root.empty : Root := ⟨[]⟩

/-- JSON documents as produced by `json.dump` / consumed by `json.load`. -/
inductive JsonV : Type where
  | num (n : Nat)
  | str (s : String)
  | arr (elems : List JsonV)
  | obj (fields : List (String × JsonV))

/-- The bare identifier of a reference field, whether still direct or
already swapped. -/
def refUuid : Entry ⊕ UUID → UUID
  | .inl e => e.uuid
  | .inr u => u

mutual

/-- Modelled from the spec: `apischema.serialize` on the `Root` schema
(`superscore.model` is not under src/).  Per §4.3 step 1 and §6, the Root
is serialized into a structured JSON document faithfully encoding the
nested form. -/
def serializeEntry : Entry → JsonV
  | .mk u d cs rs =>
    .obj [("uuid", .num u), ("data", .num d),
          ("children", .arr (serializeEntryList cs)),
          ("refs", .arr (serializeRefList rs))]

/-- Serialize a list of entries element-wise. -/
def serializeEntryList : List Entry → List JsonV
  | [] => []
  | e :: es => serializeEntry e :: serializeEntryList es

/-- Serialize a reference field: a swapped reference is stored as the bare
identifier, a direct reference as the nested entry document. -/
def serializeRef : Entry ⊕ UUID → JsonV
  | .inl e => .obj [("entry", serializeEntry e)]
  | .inr u => .num u

/-- Serialize a list of reference fields element-wise. -/
def serializeRefList : List (Entry ⊕ UUID) → List JsonV
  | [] => []
  | r :: rs => serializeRef r :: serializeRefList rs

end

/-- Serialize a whole `Root` document. -/
def serializeRoot (r : Root) : JsonV :=
  .obj [("entries", .arr (serializeEntryList r.entries))]

mutual

/-- Modelled from the spec: `apischema.deserialize` on the `Root` schema
(§4.4) — the inverse reading of the JSON document produced by
`serializeEntry`; malformed documents yield `none`. -/
def deserializeEntry : JsonV → Option Entry
  | .obj [("uuid", .num u), ("data", .num d),
          ("children", .arr cs), ("refs", .arr rs)] =>
    match deserializeEntryList cs, deserializeRefList rs with
    | some children, some refs => some (.mk u d children refs)
    | _, _ => none
  | _ => none

/-- Deserialize a list of entry documents; fails if any element fails. -/
def deserializeEntryList : List JsonV → Option (List Entry)
  | [] => some []
  | v :: vs =>
    match deserializeEntry v, deserializeEntryList vs with
    | some e, some es => some (e :: es)
    | _, _ => none

/-- Deserialize one reference field. -/
def deserializeRef : JsonV → Option (Entry ⊕ UUID)
  | .num u => some (.inr u)
  | .obj [("entry", v)] =>
    match deserializeEntry v with
    | some e => some (.inl e)
    | _ => none
  | _ => none

/-- Deserialize a list of reference-field documents. -/
def deserializeRefList : List JsonV → Option (List (Entry ⊕ UUID))
  | [] => some []
  | v :: vs =>
    match deserializeRef v, deserializeRefList vs with
    | some r, some rs => some (r :: rs)
    | _, _ => none

end

/-- Deserialize a whole `Root` document. -/
def deserializeRoot : JsonV → Option Root
  | .obj [("entries", .arr es)] =>
    match deserializeEntryList es with
    | some entries => some ⟨entries⟩
    | _ => none
  | _ => none

/-- File contents: either a JSON document as produced by `json.dump`, or
raw bytes for files not written by this layer. -/
inductive FileContent : Type where
  | jsonDoc (v : JsonV)
  | rawBytes (s : String)

/-- `os.stat(path).st_size` in the model: a dumped JSON document always has
positive size; raw bytes have their length. -/
def FileContent.size : FileContent → Nat
  | .jsonDoc _ => 1
  | .rawBytes s => s.length

/-- A file: contents plus permission bits (`shutil.copymode` copies the
latter). -/
structure FileData where
  content : FileContent
  perm : Nat

/-- The filesystem: an association list from paths to file data; the first
binding for a path is its current state. -/
abbrev FS := List (String × FileData)

/-- Read the file at path `q`, if present. -/
def FS.lookup : FS → String → Option FileData
  | [], _ => none
  | (p, d) :: fsr, q => if p = q then some d else FS.lookup fsr q

/-- `os.path.exists`. -/
def FS.pathExists (fs : FS) (p : String) : Bool :=
  (FS.lookup fs p).isSome

/-- `os.remove`, and the removal half of `shutil.move`: drop every binding
of `q`. -/
def FS.erase : FS → String → FS
  | [], _ => []
  | (p, d) :: fsr, q => if p = q then FS.erase fsr q else (p, d) :: FS.erase fsr q

/-- Writing a file: the new binding replaces any previous one. -/
def FS.write (fs : FS) (p : String) (d : FileData) : FS :=
  (p, d) :: FS.erase fs p

/-- `shutil.move src dst`: the source file's bytes and mode land at the
destination and the source disappears.  (`store` only moves a file it has
just written, so the missing-source branch is unreachable there.) -/
def FS.move (fs : FS) (src dst : String) : FS :=
  match FS.lookup fs src with
  | some d => FS.write (FS.erase fs src) dst d
  | none => fs

/-- The error taxonomy (spec §7), with the source's Python exceptions mapped
onto it: `KeyError` and `FileNotFoundError` ↦ `notFound`, `PermissionError`
↦ `permissionDenied`, filesystem errors during write/copymode/rename ↦
`ioFailure`, `NotImplementedError` ↦ `notImplemented`. -/
inductive BackendError : Type where
  | notFound
  | alreadyExists
  | permissionDenied
  | ioFailure
  | notImplemented
deriving DecidableEq

/-- The state of a `FilestoreBackend`: the configured path, the held root
`_root`, the flat entry cache `_entry_cache` (a Python dict, kept in
insertion order) and the reference-link cache `_uuid_link_cache`
(a `defaultdict(set)`).  The source declares the two caches as class
attributes shared across instances (spec §9 flags this); every claim here
concerns a single backend instance, so they are modelled as instance
state. -/
structure FilestoreBackend where
  path : String
  _root : Option Root
  _entry_cache : List (UUID × Entry)
  _uuid_link_cache : List (UUID × Finset UUID)

/-- `FilestoreBackend.__init__` with `initialize=False` and no `cfg_path`
(path resolution via `build_abs_path` lives in `superscore.utils`, outside
this layer): record the path, hold no root, start with empty caches. -/
def FilestoreBackend.mkNew (path : String) : FilestoreBackend :=
  ⟨path, none, [], []⟩

/-- Dict lookup in the entry cache. -/
def cacheLookup : List (UUID × Entry) → UUID → Option Entry
  | [], _ => none
  | (k, e) :: c, u => if k = u then some e else cacheLookup c u

/-- The keys of the entry cache, in insertion order. -/
def cacheKeys (c : List (UUID × Entry)) : List UUID := c.map Prod.fst

/-- `self._uuid_link_cache[u]` on a `defaultdict(set)`: a missing key reads
as the empty set. -/
def linkGet : List (UUID × Finset UUID) → UUID → Finset UUID
  | [], _ => ∅
  | (k, s) :: c, u => if k = u then s else linkGet c u

/-- `self._uuid_link_cache[u].update(s)` on a `defaultdict(set)`. -/
def linkUpdate : List (UUID × Finset UUID) → UUID → Finset UUID → List (UUID × Finset UUID)
  | [], u, s => [(u, s)]
  | (k, t) :: c, u, s => if k = u then (k, t ∪ s) :: c else (k, t) :: linkUpdate c u s

/-- Modelled from the spec: `Entry.swap_to_uuids` lives in
`superscore.model`, which is not under src/.  Per spec §4.2 step 2 and the
glossary: every reference field holding a direct entry is rewritten to that
entry's bare identifier, already-swapped fields are no-ops, and the full
set of identifiers now referenced is returned.  Python mutates the entry;
the model returns the rewritten entry alongside the set. -/
def Entry.swap_to_uuids : Entry → Entry × Finset UUID
  | .mk u d cs rs =>
    (.mk u d cs (rs.map (fun r => .inr (refUuid r))), (rs.map refUuid).toFinset)

/-- `FilestoreBackend.maybe_add_to_cache`: bare UUIDs are ignored; an entry
is inserted under its id only if that id is absent, otherwise the insertion
is skipped silently (duplicate uuids found). -/
def FilestoreBackend.maybe_add_to_cache (b : FilestoreBackend)
    (item : Entry ⊕ UUID) : FilestoreBackend :=
  match item with
  | .inr _ => b
  | .inl e =>
    match cacheLookup b._entry_cache e.uuid with
    | some _ => b
    | none => { b with _entry_cache := b._entry_cache ++ [(e.uuid, e)] }

mutual

/-- `FilestoreBackend.flatten_and_cache`: for each owned child, add it to
the cache and recursively flatten it; then swap the entry's own references
to bare uuids, union the returned identifier set into the link cache under
the entry's uuid, and add the entry itself to the cache.  Python mutates
the tree and caches shared objects; the model returns the updated backend
together with the rewritten entry, the cache recording each entry as it
was at insertion time. -/
def FilestoreBackend.flatten_and_cache (b : FilestoreBackend) (e : Entry) :
    FilestoreBackend × Entry :=
  match e with
  | .mk u d cs rs =>
    let bc := flattenChildren b cs
    let er := Entry.swap_to_uuids (.mk u d bc.2 rs)
    let b2 : FilestoreBackend :=
      { bc.1 with _uuid_link_cache := linkUpdate bc.1._uuid_link_cache u er.2 }
    (FilestoreBackend.maybe_add_to_cache b2 (.inl er.1), er.1)

/-- The child loop of `flatten_and_cache`:
`for child in getattr(entry, 'children', []): maybe_add_to_cache(child);
flatten_and_cache(child)`. -/
def flattenChildren (b : FilestoreBackend) :
    List Entry → FilestoreBackend × List Entry
  | [] => (b, [])
  | c :: cs =>
    let b1 := FilestoreBackend.maybe_add_to_cache b (.inl c)
    let bc := FilestoreBackend.flatten_and_cache b1 c
    let bcs := flattenChildren bc.1 cs
    (bcs.1, bc.2 :: bcs.2)

end

/-- The flatten loop of `_load_or_initialize`:
`for entry in self._root.entries: self.flatten_and_cache(entry)`; the
in-place mutation of the top-level entries is returned as a new list. -/
def flattenRootEntries (b : FilestoreBackend) :
    List Entry → FilestoreBackend × List Entry
  | [] => (b, [])
  | e :: es =>
    let be := FilestoreBackend.flatten_and_cache b e
    let bes := flattenRootEntries be.1 es
    (bes.1, be.2 :: bes.2)

/-- Flatten every top-level entry of `r` into the caches and hold the
mutated root (Python mutates `self._root.entries` in place). -/
def flattenIntoCache (b : FilestoreBackend) (r : Root) : FilestoreBackend :=
  let bes := flattenRootEntries b r.entries
  { bes.1 with _root := some ⟨bes.2⟩ }

/-- Failure-injection points for `store` (spec §4.3 step 5): serialization,
the temp-file `json.dump`, `shutil.copymode`, and the final `shutil.move`.
A fault makes the corresponding step raise, if that step is executed. -/
inductive StoreFault : Type where
  | noFault
  | serializeFault
  | writeTempFault
  | copymodeFault
  | renameFault
deriving DecidableEq

/-- The permission bits of the file at `p` (420 = 0o644, the mode a newly
created file gets). -/
def permOf (fs : FS) (p : String) : Nat :=
  match FS.lookup fs p with
  | some d => d.perm
  | none => 420

/-- `FilestoreBackend.store`: serialize `self._root` when `root_node` is
`None`, and an empty `Root()` otherwise — the passed-in root is discarded;
then dump to the temp path, copy the target's permission bits onto the
temp file when the target exists, and move the temp file over the target.
On any failure inside the try block, remove the temp file if it exists and
re-raise.  `temp` stands for the fresh name produced by `_temp_path`;
`fault` injects a failure at one step.  Serialization happens before the
try block, so its failure leaves the filesystem untouched; serializing
with no argument while `self._root` is `None` also raises there. -/
def FilestoreBackend.store (b : FilestoreBackend) (root_node : Option Root)
    (fs : FS) (temp : String) (fault : StoreFault) :
    Option BackendError × FS :=
  match (match root_node with
         | none => b._root
         | some _ => some Root.empty) with
  | none => (some .ioFailure, fs)
  | some r =>
    if fault = .serializeFault then (some .ioFailure, fs)
    else
      let serialized := serializeRoot r
      if fault = .writeTempFault then
        -- `open(temp_path, 'w')` creates the file before `json.dump`
        -- fails; the except branch then removes the partial temp file
        (some .ioFailure, FS.erase (FS.write fs temp ⟨.rawBytes "", 420⟩) temp)
      else
        let fs1 := FS.write fs temp ⟨.jsonDoc serialized, 420⟩
        if FS.pathExists fs b.path then
          if fault = .copymodeFault then (some .ioFailure, FS.erase fs1 temp)
          else
            let fs2 := FS.write fs1 temp ⟨.jsonDoc serialized, permOf fs b.path⟩
            if fault = .renameFault then (some .ioFailure, FS.erase fs2 temp)
            else (none, FS.move fs2 temp b.path)
        else
          -- copymode is skipped when the target does not exist, so a
          -- copymode fault cannot fire here
          if fault = .renameFault then (some .ioFailure, FS.erase fs1 temp)
          else (none, FS.move fs1 temp b.path)

/-- `FilestoreBackend.load`: `json.load` the file at the configured path
and deserialize a `Root`.  A missing file raises `FileNotFoundError`
(notFound); non-JSON bytes or a document not matching the schema raise
(ioFailure). -/
def FilestoreBackend.load (b : FilestoreBackend) (fs : FS) :
    Except BackendError Root :=
  match FS.lookup fs b.path with
  | none => .error .notFound
  | some d =>
    match d.content with
    | .rawBytes _ => .error .ioFailure
    | .jsonDoc v =>
      match deserializeRoot v with
      | some r => .ok r
      | none => .error .ioFailure

/-- `FilestoreBackend.initialize` (named `initDb` here because the source's
name is a Lean keyword): refuse to overwrite a database — raise
`PermissionError` when the file exists with positive size — then
`self.store({})`; the argument is not `None`, so an empty `Root()` is what
gets serialized. -/
def FilestoreBackend.initDb (b : FilestoreBackend) (fs : FS) (temp : String)
    (fault : StoreFault) : Option BackendError × FS :=
  match FS.lookup fs b.path with
  | some d =>
    if 0 < FileContent.size d.content then (some .permissionDenied, fs)
    else FilestoreBackend.store b (some Root.empty) fs temp fault
  | none => FilestoreBackend.store b (some Root.empty) fs temp fault

/-- `FilestoreBackend._load_or_initialize` (named `_load_or_init` here
because of the Lean keyword): when no root is held, load it, initializing
a new database if the file is missing and loading again; then flatten
every top-level entry into the entry cache and return the state whose
`_entry_cache` is the cache the source returns.  `temp` is the temp name a
store inside initialization would use. -/
def FilestoreBackend._load_or_init (b : FilestoreBackend) (fs : FS)
    (temp : String) (fault : StoreFault) :
    Except BackendError (FilestoreBackend × FS) :=
  match b._root with
  | some r => .ok (flattenIntoCache b r, fs)
  | none =>
    match FilestoreBackend.load b fs with
    | .ok r => .ok (flattenIntoCache b r, fs)
    | .error .notFound =>
      match FilestoreBackend.initDb b fs temp fault with
      | (none, fs1) =>
        match FilestoreBackend.load b fs1 with
        | .ok r => .ok (flattenIntoCache b r, fs1)
        | .error e => .error e
      | (some e, _) => .error e
    | .error e => .error e

/-- `_load_and_store_context`: load-or-initialize, yield the flat entry
cache to the caller, and `store()` on normal exit of the scope.  The body
of the scope (the `root` property) only reads, so the model goes from the
yield straight to the final store; `t1` is a temp name for a store inside
initialization, `t2` the temp name of the final store. -/
def _load_and_store_context (b : FilestoreBackend) (fs : FS)
    (t1 t2 : String) (fault : StoreFault) :
    Except BackendError (List (UUID × Entry) × FilestoreBackend × FS) :=
  match FilestoreBackend._load_or_init b fs t1 fault with
  | .error e => .error e
  | .ok (b1, fs1) =>
    match FilestoreBackend.store b1 none fs1 t2 fault with
    | (none, fs2) => .ok (b1._entry_cache, b1, fs2)
    | (some e, _) => .error e

/-- The `root` property: read `self._root` inside the load-and-store
scope. -/
def FilestoreBackend.rootProperty (b : FilestoreBackend) (fs : FS)
    (t1 t2 : String) (fault : StoreFault) :
    Except BackendError (Option Root × FilestoreBackend × FS) :=
  match _load_and_store_context b fs t1 t2 fault with
  | .ok (_, b1, fs2) => .ok (b1._root, b1, fs2)
  | .error e => .error e

/-- `FilestoreBackend.get_entry`: a plain dict lookup in the entry cache —
a missing key raises `KeyError` (notFound).  The signature shows it reads
no filesystem state. -/
def FilestoreBackend.get_entry (b : FilestoreBackend) (meta_id : UUID) :
    Except BackendError Entry :=
  match cacheLookup b._entry_cache meta_id with
  | some e => .ok e
  | none => .error .notFound

/-- `FilestoreBackend.save_entry`: `raise NotImplementedError`, whatever
the argument. -/
def FilestoreBackend.save_entry (_b : FilestoreBackend) (_entry : Entry) :
    Except BackendError Unit :=
  .error .notImplemented

/-- `_Backend.save_entry` (core.py): the base contract method likewise
raises `NotImplementedError`. -/
def _Backend.save_entry (_entry : Entry) : Except BackendError Unit :=
  .error .notImplemented

/-- `FilestoreBackend.clear_cache`: reassign `_entry_cache` to `{}` and
`_root` to `None`; `_uuid_link_cache` is not touched by the source. -/
def FilestoreBackend.clear_cache (b : FilestoreBackend) : FilestoreBackend :=
  { b with _entry_cache := [], _root := none }

/-- `c'` is `c` with zero or more bindings appended — how every cache
mutation of the backend acts (Python dict insertion appends). -/
def cacheExtends (c c' : List (UUID × Entry)) : Prop :=
  ∃ ext, c' = c ++ ext

/-- Every identifier in `us` is present in the cache `c`. -/
def cacheHasAll (c : List (UUID × Entry)) (us : List UUID) : Prop :=
  ∀ u ∈ us, (cacheLookup c u).isSome

mutual

/-- The identifiers of all entries in a tree (the entry itself and its
transitively owned children) — the ids `flatten_and_cache` passes to
`maybe_add_to_cache`. -/
def Entry.treeUuids : Entry → List UUID
  | .mk u _ cs _ => u :: treeUuidsList cs

/-- `Entry.treeUuids` over a list of sibling trees. -/
def treeUuidsList : List Entry → List UUID
  | [] => []
  | e :: es => Entry.treeUuids e ++ treeUuidsList es

end

mutual

/-- The pure tree rewriting performed by a flatten pass: every entry's
reference fields swapped to bare identifiers, recursively.  The `Entry`
returned by `flatten_and_cache` is exactly this (the caches never influence
the rewriting). -/
def swapAll : Entry → Entry
  | .mk u d cs rs => .mk u d (swapAllList cs) (rs.map (fun r => .inr (refUuid r)))

/-- `swapAll` over a list of sibling trees. -/
def swapAllList : List Entry → List Entry
  | [] => []
  | c :: cs => swapAll c :: swapAllList cs

end

mutual

/-- Deserialization is a left inverse of serialization on entries. -/
theorem deserialize_serializeEntry (e : Entry) :
    deserializeEntry (serializeEntry e) = some e := by
  match e with
  | .mk u d cs rs =>
    rw [serializeEntry, deserializeEntry,
        deserialize_serializeEntryList cs, deserialize_serializeRefList rs]

/-- Deserialization is a left inverse of serialization on entry lists. -/
theorem deserialize_serializeEntryList (l : List Entry) :
    deserializeEntryList (serializeEntryList l) = some l := by
  match l with
  | [] => rfl
  | e :: es =>
    rw [serializeEntryList, deserializeEntryList,
        deserialize_serializeEntry e, deserialize_serializeEntryList es]

/-- Deserialization is a left inverse of serialization on references. -/
theorem deserialize_serializeRef (r : Entry ⊕ UUID) :
    deserializeRef (serializeRef r) = some r := by
  match r with
  | .inl e =>
    rw [serializeRef, deserializeRef, deserialize_serializeEntry e]
  | .inr u => rfl

/-- Deserialization is a left inverse of serialization on reference lists. -/
theorem deserialize_serializeRefList (l : List (Entry ⊕ UUID)) :
    deserializeRefList (serializeRefList l) = some l := by
  match l with
  | [] => rfl
  | r :: rs =>
    rw [serializeRefList, deserializeRefList,
        deserialize_serializeRef r, deserialize_serializeRefList rs]

end

/-- Deserialization is a left inverse of serialization on the whole Root. -/
theorem deserialize_serializeRoot (r : Root) :
    deserializeRoot (serializeRoot r) = some r := by
  rw [serializeRoot, deserializeRoot, deserialize_serializeEntryList r.entries]

/-- Reading a freshly written path yields the data just written. -/
theorem FS.lookup_write_self (fs : FS) (p : String) (d : FileData) :
    FS.lookup (FS.write fs p d) p = some d := by
  simp [FS.write, FS.lookup]

/-- Erasing path `p` does not affect reads of another path. -/
theorem FS.lookup_erase_ne (fs : FS) (p q : String) (h : p ≠ q) :
    FS.lookup (FS.erase fs p) q = FS.lookup fs q := by
  induction fs with
  | nil => rfl
  | cons hd tl ih =>
    obtain ⟨p', d'⟩ := hd
    by_cases h1 : p' = p
    · subst h1
      simp [FS.erase, FS.lookup, h, ih]
    · by_cases h2 : p' = q <;> simp [FS.erase, FS.lookup, h1, h2, Ne.symm h, ih]

/-- Reading an erased path yields nothing. -/
theorem FS.lookup_erase_self (fs : FS) (p : String) :
    FS.lookup (FS.erase fs p) p = none := by
  induction fs with
  | nil => rfl
  | cons hd tl ih =>
    obtain ⟨p', d'⟩ := hd
    by_cases h1 : p' = p <;> simp [FS.erase, FS.lookup, h1, ih]

/-- Writing path `p` does not affect reads of another path. -/
theorem FS.lookup_write_ne (fs : FS) (p q : String) (d : FileData) (h : p ≠ q) :
    FS.lookup (FS.write fs p d) q = FS.lookup fs q := by
  simp [FS.write, FS.lookup, h, FS.lookup_erase_ne fs p q h]

/-- Erasing twice is the same as erasing once. -/
theorem FS.erase_erase (fs : FS) (p : String) :
    FS.erase (FS.erase fs p) p = FS.erase fs p := by
  induction fs with
  | nil => rfl
  | cons hd tl ih =>
    obtain ⟨p', d'⟩ := hd
    by_cases h1 : p' = p <;> simp [FS.erase, h1, ih]

/-- Erasing a freshly written path undoes the write up to older bindings of
the same path. -/
theorem FS.erase_write (fs : FS) (p : String) (d : FileData) :
    FS.erase (FS.write fs p d) p = FS.erase fs p := by
  simp [FS.write, FS.erase, FS.erase_erase]

/-- Erasing an absent path is a no-op. -/
theorem FS.erase_of_lookup_none (fs : FS) (p : String)
    (h : FS.lookup fs p = none) : FS.erase fs p = fs := by
  induction fs with
  | nil => rfl
  | cons hd tl ih =>
    obtain ⟨p', d'⟩ := hd
    by_cases h1 : p' = p
    · subst h1; simp [FS.lookup] at h
    · simp [FS.lookup, h1] at h
      simp [FS.erase, h1, ih h]

/-- A cache lookup in a concatenation reads the left part first. -/
theorem cacheLookup_append (c c' : List (UUID × Entry)) (u : UUID) :
    cacheLookup (c ++ c') u =
      (match cacheLookup c u with
       | some e => some e
       | none => cacheLookup c' u) := by
  induction c with
  | nil => simp [cacheLookup]
  | cons hd tl ih =>
    obtain ⟨k, e⟩ := hd
    by_cases h1 : k = u <;> simp [cacheLookup, h1, ih]

/-- A cache lookup fails exactly when the key is absent. -/
theorem cacheLookup_eq_none_iff (c : List (UUID × Entry)) (u : UUID) :
    cacheLookup c u = none ↔ u ∉ cacheKeys c := by
  induction c with
  | nil => simp [cacheLookup, cacheKeys]
  | cons hd tl ih =>
    obtain ⟨k, e⟩ := hd
    by_cases h1 : k = u
    · subst h1; simp [cacheLookup, cacheKeys]
    · simp [cacheLookup, cacheKeys, h1, Ne.symm h1, ih]

/-- Keys of a concatenation. -/
theorem cacheKeys_append (c c' : List (UUID × Entry)) :
    cacheKeys (c ++ c') = cacheKeys c ++ cacheKeys c' := by
  simp [cacheKeys]

/-- Reading the link cache after an update: the updated key gains the new
identifiers, every other key is untouched. -/
theorem linkGet_linkUpdate (lc : List (UUID × Finset UUID)) (u v : UUID)
    (s : Finset UUID) :
    linkGet (linkUpdate lc u s) v =
      (if u = v then linkGet lc v ∪ s else linkGet lc v) := by
  induction lc with
  | nil =>
    by_cases h1 : u = v <;> simp [linkUpdate, linkGet, h1]
  | cons hd tl ih =>
    obtain ⟨k, t⟩ := hd
    by_cases h1 : k = u
    · subst h1
      by_cases h2 : k = v <;> simp [linkUpdate, linkGet, h2]
    · by_cases h2 : k = v
      · subst h2
        have : ¬u = k := fun h => h1 h.symm
        simp [linkUpdate, linkGet, h1, this]
      · simp [linkUpdate, linkGet, h1, h2, ih]

/-- Link-cache updates only grow the recorded sets. -/
theorem linkGet_linkUpdate_mono (lc : List (UUID × Finset UUID)) (u v : UUID)
    (s : Finset UUID) :
    linkGet lc v ⊆ linkGet (linkUpdate lc u s) v := by
  rw [linkGet_linkUpdate]
  by_cases h1 : u = v <;> simp [h1, Finset.subset_union_left]

/-- `maybe_add_to_cache` never changes the configured path. -/
theorem maybe_add_path (b : FilestoreBackend) (it : Entry ⊕ UUID) :
    (FilestoreBackend.maybe_add_to_cache b it).path = b.path := by
  rcases it with e | u
  · simp only [FilestoreBackend.maybe_add_to_cache]
    split <;> rfl
  · rfl

/-- `maybe_add_to_cache` never changes the link cache. -/
theorem maybe_add_link (b : FilestoreBackend) (it : Entry ⊕ UUID) :
    (FilestoreBackend.maybe_add_to_cache b it)._uuid_link_cache =
      b._uuid_link_cache := by
  rcases it with e | u
  · simp only [FilestoreBackend.maybe_add_to_cache]
    split <;> rfl
  · rfl

/-- `maybe_add_to_cache` only ever appends to the entry cache. -/
theorem maybe_add_cache_extend (b : FilestoreBackend) (it : Entry ⊕ UUID) :
    ∃ ext, (FilestoreBackend.maybe_add_to_cache b it)._entry_cache =
      b._entry_cache ++ ext := by
  rcases it with e | u
  · cases h : cacheLookup b._entry_cache e.uuid
    · exact ⟨[(e.uuid, e)], by simp [FilestoreBackend.maybe_add_to_cache, h]⟩
    · exact ⟨[], by simp [FilestoreBackend.maybe_add_to_cache, h]⟩
  · exact ⟨[], by simp [FilestoreBackend.maybe_add_to_cache]⟩

/-- A key already present keeps being found (with the same entry) after an
append. -/
theorem cacheLookup_append_of_some (c ext : List (UUID × Entry)) (u : UUID)
    (e : Entry) (h : cacheLookup c u = some e) :
    cacheLookup (c ++ ext) u = some e := by
  rw [cacheLookup_append, h]

/-- Presence of a key survives appends. -/
theorem cacheLookup_isSome_append (c ext : List (UUID × Entry)) (u : UUID)
    (h : (cacheLookup c u).isSome) :
    (cacheLookup (c ++ ext) u).isSome := by
  rw [cacheLookup_append]
  cases h2 : cacheLookup c u
  · rw [h2] at h; simp at h
  · simp

/-- After `maybe_add_to_cache` the entry's own id is present in the cache. -/
theorem maybe_add_present (b : FilestoreBackend) (e : Entry) :
    (cacheLookup
      (FilestoreBackend.maybe_add_to_cache b (.inl e))._entry_cache
      e.uuid).isSome := by
  cases h : cacheLookup b._entry_cache e.uuid
  · simp [FilestoreBackend.maybe_add_to_cache, h, cacheLookup_append, cacheLookup]
  · simp [FilestoreBackend.maybe_add_to_cache, h]

/-- `maybe_add_to_cache` with an already-present id leaves the whole state
unchanged. -/
theorem maybe_add_of_present (b : FilestoreBackend) (e : Entry)
    (h : (cacheLookup b._entry_cache e.uuid).isSome) :
    FilestoreBackend.maybe_add_to_cache b (.inl e) = b := by
  cases h2 : cacheLookup b._entry_cache e.uuid
  · rw [h2] at h; simp at h
  · simp [FilestoreBackend.maybe_add_to_cache, h2]

/-- An entry's own id heads its tree ids. -/
theorem uuid_mem_treeUuids (e : Entry) : e.uuid ∈ Entry.treeUuids e := by
  match e with
  | .mk u d cs rs => simp [Entry.treeUuids, Entry.uuid]

/-- `cacheExtends` is transitive. -/
theorem cacheExtends_trans (c1 c2 c3 : List (UUID × Entry))
    (h1 : cacheExtends c1 c2) (h2 : cacheExtends c2 c3) :
    cacheExtends c1 c3 := by
  obtain ⟨e1, he1⟩ := h1
  obtain ⟨e2, he2⟩ := h2
  exact ⟨e1 ++ e2, by rw [he2, he1, List.append_assoc]⟩

/-- `maybe_add_to_cache` extends the cache. -/
theorem maybe_add_cache_extends (b : FilestoreBackend) (it : Entry ⊕ UUID) :
    cacheExtends b._entry_cache
      (FilestoreBackend.maybe_add_to_cache b it)._entry_cache :=
  maybe_add_cache_extend b it

/-- Identifiers present in a cache stay present in any extension. -/
theorem cacheHasAll_mono (c c' : List (UUID × Entry)) (us : List UUID)
    (hext : cacheExtends c c') (h : cacheHasAll c us) : cacheHasAll c' us := by
  obtain ⟨ext, hext⟩ := hext
  intro u hu
  rw [hext]
  exact cacheLookup_isSome_append c ext u (h u hu)

mutual

/-- A flatten pass never changes the configured path. -/
theorem flatten_path (b : FilestoreBackend) (e : Entry) :
    (FilestoreBackend.flatten_and_cache b e).1.path = b.path := by
  match e with
  | .mk u d cs rs =>
    have ih := flattenChildren_path b cs
    simp [FilestoreBackend.flatten_and_cache, maybe_add_path, ih]

/-- The child loop never changes the configured path. -/
theorem flattenChildren_path (b : FilestoreBackend) (l : List Entry) :
    (flattenChildren b l).1.path = b.path := by
  match l with
  | [] => rfl
  | c :: cs =>
    have ih1 := flatten_path (FilestoreBackend.maybe_add_to_cache b (.inl c)) c
    have ih2 := flattenChildren_path
      (FilestoreBackend.flatten_and_cache
        (FilestoreBackend.maybe_add_to_cache b (.inl c)) c).1 cs
    simp [flattenChildren, ih2, ih1, maybe_add_path]

end

mutual

/-- The entry returned by a flatten pass is the pure reference-swapped
tree: the caches never influence the rewriting. -/
theorem flatten_snd (b : FilestoreBackend) (e : Entry) :
    (FilestoreBackend.flatten_and_cache b e).2 = swapAll e := by
  match e with
  | .mk u d cs rs =>
    have ih := flattenChildren_snd b cs
    simp [FilestoreBackend.flatten_and_cache, Entry.swap_to_uuids, swapAll, ih]

/-- The child loop returns the pure reference-swapped trees. -/
theorem flattenChildren_snd (b : FilestoreBackend) (l : List Entry) :
    (flattenChildren b l).2 = swapAllList l := by
  match l with
  | [] => rfl
  | c :: cs =>
    have ih1 := flatten_snd (FilestoreBackend.maybe_add_to_cache b (.inl c)) c
    have ih2 := flattenChildren_snd
      (FilestoreBackend.flatten_and_cache
        (FilestoreBackend.maybe_add_to_cache b (.inl c)) c).1 cs
    simp [flattenChildren, swapAllList, ih1, ih2]

end

mutual

/-- A flatten pass only ever appends to the entry cache. -/
theorem flatten_cache_extends (b : FilestoreBackend) (e : Entry) :
    cacheExtends b._entry_cache
      (FilestoreBackend.flatten_and_cache b e).1._entry_cache := by
  match e with
  | .mk u d cs rs =>
    have ih := flattenChildren_cache_extends b cs
    simp only [FilestoreBackend.flatten_and_cache]
    exact cacheExtends_trans _ _ _ ih (maybe_add_cache_extends _ _)

/-- The child loop only ever appends to the entry cache. -/
theorem flattenChildren_cache_extends (b : FilestoreBackend) (l : List Entry) :
    cacheExtends b._entry_cache (flattenChildren b l).1._entry_cache := by
  match l with
  | [] => exact ⟨[], by simp [flattenChildren]⟩
  | c :: cs =>
    have ih1 := flatten_cache_extends (FilestoreBackend.maybe_add_to_cache b (.inl c)) c
    have ih2 := flattenChildren_cache_extends
      (FilestoreBackend.flatten_and_cache
        (FilestoreBackend.maybe_add_to_cache b (.inl c)) c).1 cs
    simp only [flattenChildren]
    exact cacheExtends_trans _ _ _ (maybe_add_cache_extends _ _)
      (cacheExtends_trans _ _ _ ih1 ih2)

end

/-- The swapped entry keeps its identifier. -/
theorem swap_fst_uuid (e : Entry) :
    (Entry.swap_to_uuids e).1.uuid = e.uuid := by
  match e with
  | .mk u d cs rs => simp [Entry.swap_to_uuids, Entry.uuid]

mutual

/-- After a flatten pass, every identifier of the flattened tree is present
in the entry cache. -/
theorem flatten_all_present (b : FilestoreBackend) (e : Entry) :
    cacheHasAll (FilestoreBackend.flatten_and_cache b e).1._entry_cache
      (Entry.treeUuids e) := by
  match e with
  | .mk u d cs rs =>
    have ih := flattenChildren_all_present b cs
    simp only [FilestoreBackend.flatten_and_cache, Entry.treeUuids]
    intro v hv
    rcases List.mem_cons.mp hv with rfl | hv
    · have h1 := maybe_add_present
        { (flattenChildren b cs).1 with
          _uuid_link_cache :=
            linkUpdate (flattenChildren b cs).1._uuid_link_cache v
              (Entry.swap_to_uuids (.mk v d (flattenChildren b cs).2 rs)).2 }
        (Entry.swap_to_uuids (.mk v d (flattenChildren b cs).2 rs)).1
      rw [swap_fst_uuid] at h1
      simpa [Entry.uuid] using h1
    · refine cacheHasAll_mono _ _ _ (maybe_add_cache_extends _ _) ?_ v hv
      exact ih

/-- After the child loop, every identifier of the flattened trees is
present in the entry cache. -/
theorem flattenChildren_all_present (b : FilestoreBackend) (l : List Entry) :
    cacheHasAll (flattenChildren b l).1._entry_cache (treeUuidsList l) := by
  match l with
  | [] => intro v hv; simp [treeUuidsList] at hv
  | c :: cs =>
    have ih1 := flatten_all_present (FilestoreBackend.maybe_add_to_cache b (.inl c)) c
    have ih2 := flattenChildren_all_present
      (FilestoreBackend.flatten_and_cache
        (FilestoreBackend.maybe_add_to_cache b (.inl c)) c).1 cs
    simp only [flattenChildren, treeUuidsList]
    intro v hv
    rcases List.mem_append.mp hv with hv | hv
    · exact cacheHasAll_mono _ _ _
        (flattenChildren_cache_extends _ cs) ih1 v hv
    · exact ih2 v hv

end

mutual

/-- A flatten pass over a tree all of whose identifiers are already cached
leaves the entry cache unchanged. -/
theorem flatten_cache_unchanged (b : FilestoreBackend) (e : Entry)
    (h : cacheHasAll b._entry_cache (Entry.treeUuids e)) :
    (FilestoreBackend.flatten_and_cache b e).1._entry_cache =
      b._entry_cache := by
  match e with
  | .mk u d cs rs =>
    have ih := flattenChildren_cache_unchanged b cs
      (fun v hv => h v (by simp [Entry.treeUuids, hv]))
    simp only [FilestoreBackend.flatten_and_cache]
    rw [maybe_add_of_present]
    · exact ih
    · rw [swap_fst_uuid]
      show (cacheLookup (flattenChildren b cs).1._entry_cache
        (Entry.uuid (.mk u d (flattenChildren b cs).2 rs))).isSome
      rw [ih]
      exact h u (by simp [Entry.treeUuids, Entry.uuid])

/-- The child loop over trees all of whose identifiers are already cached
leaves the entry cache unchanged. -/
theorem flattenChildren_cache_unchanged (b : FilestoreBackend) (l : List Entry)
    (h : cacheHasAll b._entry_cache (treeUuidsList l)) :
    (flattenChildren b l).1._entry_cache = b._entry_cache := by
  match l with
  | [] => rfl
  | c :: cs =>
    have hc : FilestoreBackend.maybe_add_to_cache b (.inl c) = b :=
      maybe_add_of_present b c
        (h c.uuid (by simp [treeUuidsList]; exact Or.inl (uuid_mem_treeUuids c)))
    have ih1 := flatten_cache_unchanged b c
      (fun v hv => h v (by simp [treeUuidsList, hv]))
    have ih2 := flattenChildren_cache_unchanged
      (FilestoreBackend.flatten_and_cache b c).1 cs
      (by rw [ih1]; exact fun v hv => h v (by simp [treeUuidsList, hv]))
    simp only [flattenChildren]
    rw [hc, ih2, ih1]

end

mutual

/-- A flatten pass only grows the per-id link-cache sets. -/
theorem flatten_link_mono (b : FilestoreBackend) (e : Entry) (v : UUID) :
    linkGet b._uuid_link_cache v ⊆
      linkGet (FilestoreBackend.flatten_and_cache b e).1._uuid_link_cache v := by
  match e with
  | .mk u d cs rs =>
    have ih := flattenChildren_link_mono b cs v
    simp only [FilestoreBackend.flatten_and_cache]
    rw [maybe_add_link]
    exact Finset.Subset.trans ih (linkGet_linkUpdate_mono _ _ _ _)

/-- The child loop only grows the per-id link-cache sets. -/
theorem flattenChildren_link_mono (b : FilestoreBackend) (l : List Entry)
    (v : UUID) :
    linkGet b._uuid_link_cache v ⊆
      linkGet (flattenChildren b l).1._uuid_link_cache v := by
  match l with
  | [] => exact Finset.Subset.refl _
  | c :: cs =>
    have ih1 := flatten_link_mono (FilestoreBackend.maybe_add_to_cache b (.inl c)) c v
    have ih2 := flattenChildren_link_mono
      (FilestoreBackend.flatten_and_cache
        (FilestoreBackend.maybe_add_to_cache b (.inl c)) c).1 cs v
    simp only [flattenChildren]
    rw [maybe_add_link] at ih1
    exact Finset.Subset.trans ih1 ih2

end

/-- `maybe_add_to_cache` keeps the keys of the entry cache duplicate-free. -/
theorem maybe_add_keys_nodup (b : FilestoreBackend) (it : Entry ⊕ UUID)
    (h : (cacheKeys b._entry_cache).Nodup) :
    (cacheKeys (FilestoreBackend.maybe_add_to_cache b it)._entry_cache).Nodup := by
  rcases it with e | u
  · cases h2 : cacheLookup b._entry_cache e.uuid
    · have hu : e.uuid ∉ cacheKeys b._entry_cache :=
        (cacheLookup_eq_none_iff _ _).mp h2
      have hc : (FilestoreBackend.maybe_add_to_cache b (.inl e))._entry_cache
          = b._entry_cache ++ [(e.uuid, e)] := by
        simp [FilestoreBackend.maybe_add_to_cache, h2]
      rw [hc, cacheKeys_append]
      refine List.Nodup.append h (List.nodup_singleton _) ?_
      intro a ha hb
      simp [cacheKeys] at hb
      subst hb
      exact hu ha
    · have hc : (FilestoreBackend.maybe_add_to_cache b (.inl e))._entry_cache
          = b._entry_cache := by simp [FilestoreBackend.maybe_add_to_cache, h2]
      rw [hc]; exact h
  · exact h

mutual

/-- A flatten pass keeps the cache keys duplicate-free: the cache holds at
most one entry per identifier throughout flattening. -/
theorem flatten_keys_nodup (b : FilestoreBackend) (e : Entry)
    (h : (cacheKeys b._entry_cache).Nodup) :
    (cacheKeys (FilestoreBackend.flatten_and_cache b e).1._entry_cache).Nodup := by
  match e with
  | .mk u d cs rs =>
    have ih := flattenChildren_keys_nodup b cs h
    simp only [FilestoreBackend.flatten_and_cache]
    exact maybe_add_keys_nodup _ _ ih

/-- The child loop keeps the cache keys duplicate-free. -/
theorem flattenChildren_keys_nodup (b : FilestoreBackend) (l : List Entry)
    (h : (cacheKeys b._entry_cache).Nodup) :
    (cacheKeys (flattenChildren b l).1._entry_cache).Nodup := by
  match l with
  | [] => exact h
  | c :: cs =>
    have ih1 := flatten_keys_nodup (FilestoreBackend.maybe_add_to_cache b (.inl c)) c
      (maybe_add_keys_nodup b (.inl c) h)
    have ih2 := flattenChildren_keys_nodup
      (FilestoreBackend.flatten_and_cache
        (FilestoreBackend.maybe_add_to_cache b (.inl c)) c).1 cs ih1
    simpa [flattenChildren] using ih2

end

/-- Swapping an already-swapped reference list is a no-op. -/
theorem map_swap_idem (rs : List (Entry ⊕ UUID)) :
    (rs.map (fun r => (Sum.inr (refUuid r) : Entry ⊕ UUID))).map
      (fun r => (Sum.inr (refUuid r) : Entry ⊕ UUID)) =
    rs.map (fun r => (Sum.inr (refUuid r) : Entry ⊕ UUID)) := by
  induction rs with
  | nil => rfl
  | cons r rs ih => simp [refUuid, ih]

mutual

/-- The reference-swapping pass is idempotent on trees. -/
theorem swapAll_idem (e : Entry) : swapAll (swapAll e) = swapAll e := by
  match e with
  | .mk u d cs rs =>
    have ih := swapAllList_idem cs
    simp [swapAll, ih, map_swap_idem, refUuid]

/-- The reference-swapping pass is idempotent on lists of trees. -/
theorem swapAllList_idem (l : List Entry) :
    swapAllList (swapAllList l) = swapAllList l := by
  match l with
  | [] => rfl
  | c :: cs =>
    have ih1 := swapAll_idem c
    have ih2 := swapAllList_idem cs
    simp [swapAllList, ih1, ih2]

end

mutual

/-- Reference swapping leaves the tree's identifiers unchanged. -/
theorem treeUuids_swapAll (e : Entry) :
    Entry.treeUuids (swapAll e) = Entry.treeUuids e := by
  match e with
  | .mk u d cs rs =>
    have ih := treeUuidsList_swapAllList cs
    simp [swapAll, Entry.treeUuids, ih]

/-- Reference swapping leaves the identifiers of tree lists unchanged. -/
theorem treeUuidsList_swapAllList (l : List Entry) :
    treeUuidsList (swapAllList l) = treeUuidsList l := by
  match l with
  | [] => rfl
  | c :: cs =>
    have ih1 := treeUuids_swapAll c
    have ih2 := treeUuidsList_swapAllList cs
    simp [swapAllList, treeUuidsList, ih1, ih2]

end

/-- The flatten loop over top-level entries returns the pure
reference-swapped trees. -/
theorem flattenRootEntries_snd (b : FilestoreBackend) (l : List Entry) :
    (flattenRootEntries b l).2 = swapAllList l := by
  induction l generalizing b with
  | nil => rfl
  | cons e es ih => simp [flattenRootEntries, swapAllList, flatten_snd, ih]

/-- The flatten loop only ever appends to the entry cache. -/
theorem flattenRootEntries_cache_extends (b : FilestoreBackend) (l : List Entry) :
    cacheExtends b._entry_cache (flattenRootEntries b l).1._entry_cache := by
  induction l generalizing b with
  | nil => exact ⟨[], by simp [flattenRootEntries]⟩
  | cons e es ih =>
    simp only [flattenRootEntries]
    exact cacheExtends_trans _ _ _ (flatten_cache_extends b e) (ih _)

/-- After the flatten loop, every identifier of the flattened trees is in
the entry cache. -/
theorem flattenRootEntries_all_present (b : FilestoreBackend) (l : List Entry) :
    cacheHasAll (flattenRootEntries b l).1._entry_cache (treeUuidsList l) := by
  induction l generalizing b with
  | nil => intro v hv; simp [treeUuidsList] at hv
  | cons e es ih =>
    simp only [flattenRootEntries, treeUuidsList]
    intro v hv
    rcases List.mem_append.mp hv with hv | hv
    · exact cacheHasAll_mono _ _ _ (flattenRootEntries_cache_extends _ es)
        (flatten_all_present b e) v hv
    · exact ih _ v hv

/-- The flatten loop over trees all of whose identifiers are already
cached leaves the entry cache unchanged. -/
theorem flattenRootEntries_cache_unchanged (b : FilestoreBackend)
    (l : List Entry) (h : cacheHasAll b._entry_cache (treeUuidsList l)) :
    (flattenRootEntries b l).1._entry_cache = b._entry_cache := by
  induction l generalizing b with
  | nil => rfl
  | cons e es ih =>
    have h1 := flatten_cache_unchanged b e
      (fun v hv => h v (by simp [treeUuidsList, hv]))
    have h2 := ih (FilestoreBackend.flatten_and_cache b e).1
      (by rw [h1]; exact fun v hv => h v (by simp [treeUuidsList, hv]))
    simp only [flattenRootEntries]
    rw [h2, h1]

/-- The flatten loop only grows the per-id link-cache sets. -/
theorem flattenRootEntries_link_mono (b : FilestoreBackend) (l : List Entry)
    (v : UUID) :
    linkGet b._uuid_link_cache v ⊆
      linkGet (flattenRootEntries b l).1._uuid_link_cache v := by
  induction l generalizing b with
  | nil => exact Finset.Subset.refl _
  | cons e es ih =>
    simp only [flattenRootEntries]
    exact Finset.Subset.trans (flatten_link_mono b e v) (ih _)

/-- A fault-free `store` writes the serialized root at the target path with
the target's previous permission bits, and removes the temp file. -/
theorem store_noFault_spec (b : FilestoreBackend) (root_node : Option Root)
    (r : Root) (fs : FS) (temp : String)
    (hr : (match root_node with
           | none => b._root
           | some _ => some Root.empty) = some r) :
    FilestoreBackend.store b root_node fs temp .noFault =
      (none, FS.write (FS.erase fs temp) b.path
        ⟨.jsonDoc (serializeRoot r), permOf fs b.path⟩) := by
  unfold FilestoreBackend.store
  rw [hr]
  by_cases hex : FS.pathExists fs b.path
  · simp [hex, FS.move, FS.lookup_write_self, FS.erase_write]
  · have hnone : FS.lookup fs b.path = none := by
      rw [FS.pathExists] at hex
      exact Option.not_isSome_iff_eq_none.mp (by simpa using hex)
    simp [hex, FS.move, FS.lookup_write_self, FS.erase_write, permOf, hnone]

/-- A failing `store` (any injected fault, or serializing an unset root)
restores the filesystem exactly: with a fresh temp name, the temp file is
gone and every path — the target in particular — reads as before. -/
theorem store_fail_fs_eq (b : FilestoreBackend) (root_node : Option Root)
    (fs : FS) (temp : String) (fault : StoreFault) (e : BackendError)
    (htemp : FS.lookup fs temp = none)
    (hfail : (FilestoreBackend.store b root_node fs temp fault).1 = some e) :
    (FilestoreBackend.store b root_node fs temp fault).2 = fs := by
  unfold FilestoreBackend.store at hfail ⊢
  cases hroot : (match root_node with
                 | none => b._root
                 | some _ => some Root.empty) with
  | none => simp
  | some r =>
    rw [hroot] at hfail
    cases fault with
    | noFault =>
      exfalso
      by_cases hex : FS.pathExists fs b.path <;>
        simp [hex, FS.move, FS.lookup_write_self] at hfail
    | serializeFault => simp
    | writeTempFault =>
      simp [FS.erase_write, FS.erase_of_lookup_none fs temp htemp]
    | copymodeFault =>
      by_cases hex : FS.pathExists fs b.path
      · simp [hex, FS.erase_write, FS.erase_of_lookup_none fs temp htemp]
      · exfalso
        simp [hex, FS.move, FS.lookup_write_self] at hfail
    | renameFault =>
      by_cases hex : FS.pathExists fs b.path <;>
        simp [hex, FS.erase_write, FS.erase_of_lookup_none fs temp htemp]

/-- The flatten loop never changes the configured path. -/
theorem flattenRootEntries_path (b : FilestoreBackend) (l : List Entry) :
    (flattenRootEntries b l).1.path = b.path := by
  induction l generalizing b with
  | nil => rfl
  | cons e es ih =>
    simp only [flattenRootEntries]
    rw [ih, flatten_path]

/-- `flattenIntoCache` holds the flattened entries as the new root. -/
theorem flattenIntoCache_root (b : FilestoreBackend) (r : Root) :
    (flattenIntoCache b r)._root =
      some ⟨(flattenRootEntries b r.entries).2⟩ := rfl

/-- `flattenIntoCache` never changes the configured path. -/
theorem flattenIntoCache_path (b : FilestoreBackend) (r : Root) :
    (flattenIntoCache b r).path = b.path := by
  simp [flattenIntoCache, flattenRootEntries_path]

/-- A successful `_load_or_initialize` keeps the configured path and always
leaves a held root. -/
theorem _load_or_init_ok (b b1 : FilestoreBackend) (fs fs1 : FS)
    (temp : String) (fault : StoreFault)
    (h : FilestoreBackend._load_or_init b fs temp fault = .ok (b1, fs1)) :
    b1.path = b.path ∧ ∃ r1, b1._root = some r1 := by
  unfold FilestoreBackend._load_or_init at h
  repeat' split at h
  all_goals first
    | (simp only [Except.ok.injEq, Prod.mk.injEq] at h
       obtain ⟨hb, hf⟩ := h
       rw [← hb]
       exact ⟨flattenIntoCache_path _ _, _, flattenIntoCache_root _ _⟩)
    | simp at h

/-- C1: when `store()` is called with an explicit Root argument, the
passed-in root is discarded and the serialization of an empty `Root()` is
written at the target path; when `store()` is called with no argument, the
backend's currently held root is the one serialized and written. -/
theorem store_discards_explicit_root (b : FilestoreBackend) (r r0 : Root)
    (fs : FS) (temp : String) (hr : b._root = some r0) :
    ((FilestoreBackend.store b (some r) fs temp .noFault).1 = none ∧
      FS.lookup (FilestoreBackend.store b (some r) fs temp .noFault).2 b.path =
        some ⟨.jsonDoc (serializeRoot Root.empty), permOf fs b.path⟩) ∧
    ((FilestoreBackend.store b none fs temp .noFault).1 = none ∧
      FS.lookup (FilestoreBackend.store b none fs temp .noFault).2 b.path =
        some ⟨.jsonDoc (serializeRoot r0), permOf fs b.path⟩) := by
  have h1 := store_noFault_spec b (some r) Root.empty fs temp rfl
  have h2 := store_noFault_spec b none r0 fs temp hr
  rw [h1, h2]
  simp [FS.lookup_write_self]

/-- Witness for C1 at a concrete backend, roots, filesystem and temp name. -/
theorem store_discards_explicit_root_witness :
    ((FilestoreBackend.store ⟨"db", some ⟨[.mk 1 0 [] []]⟩, [], []⟩
        (some ⟨[.mk 2 3 [] []]⟩) [] "t" .noFault).1 = none ∧
      FS.lookup (FilestoreBackend.store ⟨"db", some ⟨[.mk 1 0 [] []]⟩, [], []⟩
        (some ⟨[.mk 2 3 [] []]⟩) [] "t" .noFault).2 "db" =
        some ⟨.jsonDoc (serializeRoot Root.empty), permOf [] "db"⟩) ∧
    ((FilestoreBackend.store ⟨"db", some ⟨[.mk 1 0 [] []]⟩, [], []⟩
        none [] "t" .noFault).1 = none ∧
      FS.lookup (FilestoreBackend.store ⟨"db", some ⟨[.mk 1 0 [] []]⟩, [], []⟩
        none [] "t" .noFault).2 "db" =
        some ⟨.jsonDoc (serializeRoot ⟨[.mk 1 0 [] []]⟩), permOf [] "db"⟩) :=
  store_discards_explicit_root ⟨"db", some ⟨[.mk 1 0 [] []]⟩, [], []⟩
    ⟨[.mk 2 3 [] []]⟩ ⟨[.mk 1 0 [] []]⟩ [] "t" rfl

/-- C2 counterexample: passing the nonempty root `⟨[entry 1]⟩` to `store`
and loading the path back yields the empty root, not the root passed in —
`load(store(R))` is not `R`. -/
theorem store_load_roundtrip_cex :
    (FilestoreBackend.store ⟨"db", none, [], []⟩ (some ⟨[.mk 1 0 [] []]⟩)
        [] "t" .noFault).1 = none ∧
    FilestoreBackend.load ⟨"db", none, [], []⟩
      (FilestoreBackend.store ⟨"db", none, [], []⟩ (some ⟨[.mk 1 0 [] []]⟩)
        [] "t" .noFault).2 = .ok Root.empty ∧
    FilestoreBackend.load ⟨"db", none, [], []⟩
      (FilestoreBackend.store ⟨"db", none, [], []⟩ (some ⟨[.mk 1 0 [] []]⟩)
        [] "t" .noFault).2 ≠ .ok (⟨[.mk 1 0 [] []]⟩ : Root) := by
  refine ⟨rfl, rfl, ?_⟩
  intro hcontra
  have h1 : FilestoreBackend.load ⟨"db", none, [], []⟩
      (FilestoreBackend.store ⟨"db", none, [], []⟩ (some ⟨[.mk 1 0 [] []]⟩)
        [] "t" .noFault).2 = .ok Root.empty := rfl
  rw [h1] at hcontra
  have h2 := congrArg Root.entries (Except.ok.inj hcontra)
  simp [Root.empty] at h2

/-- C2 (amended): the round-trip holds for the root the backend holds —
for every root `r` held as `_root`, a no-argument fault-free `store`
succeeds and `load` on the resulting filesystem returns exactly `r`. -/
theorem store_held_root_load_roundtrip (b : FilestoreBackend) (r : Root)
    (fs : FS) (temp : String) (hr : b._root = some r) :
    (FilestoreBackend.store b none fs temp .noFault).1 = none ∧
    FilestoreBackend.load b
      (FilestoreBackend.store b none fs temp .noFault).2 = .ok r := by
  have h1 := store_noFault_spec b none r fs temp hr
  rw [h1]
  exact ⟨rfl, by
    simp [FilestoreBackend.load, FS.lookup_write_self, deserialize_serializeRoot]⟩

/-- Witness for the amended C2 at a concrete backend holding a nonempty
root. -/
theorem store_held_root_load_roundtrip_witness :
    (FilestoreBackend.store ⟨"db", some ⟨[.mk 1 0 [] []]⟩, [], []⟩
        none [] "t" .noFault).1 = none ∧
    FilestoreBackend.load ⟨"db", some ⟨[.mk 1 0 [] []]⟩, [], []⟩
      (FilestoreBackend.store ⟨"db", some ⟨[.mk 1 0 [] []]⟩, [], []⟩
        none [] "t" .noFault).2 = .ok ⟨[.mk 1 0 [] []]⟩ :=
  store_held_root_load_roundtrip ⟨"db", some ⟨[.mk 1 0 [] []]⟩, [], []⟩
    ⟨[.mk 1 0 [] []]⟩ [] "t" rfl

/-- C3: if any step of `store` fails (serialization, temp-file write,
permission copy, or rename), then — the temp name being fresh — the
temporary file does not exist afterwards, the failure is propagated (it is
the hypothesis), and the target path reads byte-identically to its
pre-call state; indeed the whole filesystem is exactly the pre-call one. -/
theorem store_failure_atomic (b : FilestoreBackend) (root_node : Option Root)
    (fs : FS) (temp : String) (fault : StoreFault) (e : BackendError)
    (htemp : FS.lookup fs temp = none)
    (hfail : (FilestoreBackend.store b root_node fs temp fault).1 = some e) :
    FS.lookup (FilestoreBackend.store b root_node fs temp fault).2 temp = none ∧
    FS.lookup (FilestoreBackend.store b root_node fs temp fault).2 b.path =
      FS.lookup fs b.path ∧
    (FilestoreBackend.store b root_node fs temp fault).2 = fs := by
  have h2 := store_fail_fs_eq b root_node fs temp fault e htemp hfail
  exact ⟨by rw [h2]; exact htemp, by rw [h2], h2⟩

/-- Witness for C3: a rename fault while storing over an existing target. -/
theorem store_failure_atomic_witness :
    FS.lookup (FilestoreBackend.store ⟨"db", some ⟨[]⟩, [], []⟩ none
      [("db", ⟨.rawBytes "old", 7⟩)] "t" .renameFault).2 "t" = none ∧
    FS.lookup (FilestoreBackend.store ⟨"db", some ⟨[]⟩, [], []⟩ none
      [("db", ⟨.rawBytes "old", 7⟩)] "t" .renameFault).2 "db" =
      FS.lookup [("db", ⟨.rawBytes "old", 7⟩)] "db" ∧
    (FilestoreBackend.store ⟨"db", some ⟨[]⟩, [], []⟩ none
      [("db", ⟨.rawBytes "old", 7⟩)] "t" .renameFault).2 =
      [("db", ⟨.rawBytes "old", 7⟩)] :=
  store_failure_atomic ⟨"db", some ⟨[]⟩, [], []⟩ none
    [("db", ⟨.rawBytes "old", 7⟩)] "t" .renameFault .ioFailure rfl rfl

/-- C4 counterexample: with id 5 already present in the entry cache,
`save_entry` raises NotImplementedError — not AlreadyExists. -/
theorem save_entry_not_alreadyExists_cex :
    cacheLookup ((⟨"db", none, [(5, .mk 5 0 [] [])], []⟩ :
      FilestoreBackend))._entry_cache (Entry.uuid (.mk 5 1 [] [])) =
      some (.mk 5 0 [] []) ∧
    FilestoreBackend.save_entry ⟨"db", none, [(5, .mk 5 0 [] [])], []⟩
      (.mk 5 1 [] []) = .error .notImplemented ∧
    FilestoreBackend.save_entry ⟨"db", none, [(5, .mk 5 0 [] [])], []⟩
      (.mk 5 1 [] []) ≠ .error .alreadyExists := by
  refine ⟨rfl, rfl, fun h => ?_⟩
  exact absurd (Except.error.inj h) (by decide)

/-- C4 (amended): `get_entry` on an identifier absent from the flat cache
fails with NotFound (`KeyError`); `save_entry` — in the filestore backend
and in the base contract alike — is unimplemented and fails with
NotImplementedError for every entry, including one whose id is already
present, and so never fails with AlreadyExists. -/
theorem get_entry_notFound_save_entry_unimplemented :
    (∀ (b : FilestoreBackend) (u : UUID),
      cacheLookup b._entry_cache u = none →
      FilestoreBackend.get_entry b u = .error .notFound) ∧
    (∀ (b : FilestoreBackend) (e : Entry),
      FilestoreBackend.save_entry b e = .error .notImplemented) ∧
    (∀ e : Entry, _Backend.save_entry e = .error .notImplemented) := by
  refine ⟨fun b u h => ?_, fun b e => rfl, fun e => rfl⟩
  simp [FilestoreBackend.get_entry, h]

/-- Witness for the amended C4: a fresh backend misses id 7; `save_entry`
with a cached id yields NotImplementedError. -/
theorem get_entry_notFound_save_entry_unimplemented_witness :
    FilestoreBackend.get_entry (FilestoreBackend.mkNew "db") 7 =
      .error .notFound ∧
    FilestoreBackend.save_entry ⟨"db", none, [(5, .mk 5 0 [] [])], []⟩
      (.mk 5 1 [] []) = .error .notImplemented :=
  ⟨get_entry_notFound_save_entry_unimplemented.1 (FilestoreBackend.mkNew "db")
      7 rfl,
   get_entry_notFound_save_entry_unimplemented.2.1
      ⟨"db", none, [(5, .mk 5 0 [] [])], []⟩ (.mk 5 1 [] [])⟩

/-- C6 counterexample: after `clear_cache` on a backend whose link cache
maps 1 ↦ {2}, the link cache still maps 1 ↦ {2}: the ReferenceLinkCache is
not emptied by the reset. -/
theorem clear_cache_link_cache_cex :
    (FilestoreBackend.clear_cache
      ⟨"db", some ⟨[]⟩, [(1, .mk 1 0 [] [])], [(1, {2})]⟩)._uuid_link_cache =
      [(1, {2})] ∧
    linkGet (FilestoreBackend.clear_cache
      ⟨"db", some ⟨[]⟩, [(1, .mk 1 0 [] [])], [(1, {2})]⟩)._uuid_link_cache 1 =
      {2} ∧
    ({2} : Finset UUID) ≠ ∅ := by
  refine ⟨rfl, rfl, by decide⟩

/-- C6 (amended): the explicit reset `clear_cache` unsets the held root and
empties the EntryCache, but leaves the ReferenceLinkCache exactly as it
was — the link cache keeps accumulating across resets. -/
theorem clear_cache_spec (b : FilestoreBackend) :
    (FilestoreBackend.clear_cache b)._root = none ∧
    (FilestoreBackend.clear_cache b)._entry_cache = [] ∧
    (FilestoreBackend.clear_cache b)._uuid_link_cache = b._uuid_link_cache :=
  ⟨rfl, rfl, rfl⟩

/-- C7: `initialize` on a path whose file already exists with non-empty
content fails with PermissionError and performs no write at all — the
filesystem, and in particular the target file's bytes, are returned
unchanged. -/
theorem initDb_refuses_nonempty (b : FilestoreBackend) (fs : FS)
    (temp : String) (fault : StoreFault) (d : FileData)
    (hd : FS.lookup fs b.path = some d)
    (hpos : 0 < FileContent.size d.content) :
    FilestoreBackend.initDb b fs temp fault = (some .permissionDenied, fs) := by
  unfold FilestoreBackend.initDb
  rw [hd]
  simp [hpos]

/-- Witness for C7: initializing over a file holding the byte `x`. -/
theorem initDb_refuses_nonempty_witness :
    FilestoreBackend.initDb (FilestoreBackend.mkNew "db")
      [("db", ⟨.rawBytes "x", 7⟩)] "t" .noFault =
      (some .permissionDenied, [("db", ⟨.rawBytes "x", 7⟩)]) :=
  initDb_refuses_nonempty (FilestoreBackend.mkNew "db")
    [("db", ⟨.rawBytes "x", 7⟩)] "t" .noFault ⟨.rawBytes "x", 7⟩ rfl (by decide)

/-- C10: `get_entry` consults only the in-memory entry cache — its
signature reads no filesystem — so on a backend whose cache was never
populated it fails NotFound for every identifier, even when the document
at the configured path loads successfully and holds entries. -/
theorem get_entry_no_lazy_load (b : FilestoreBackend) (u : UUID) (fs : FS)
    (r : Root) (hcache : b._entry_cache = [])
    (_hdisk : FilestoreBackend.load b fs = .ok r) :
    FilestoreBackend.get_entry b u = .error .notFound := by
  simp [FilestoreBackend.get_entry, hcache, cacheLookup]

/-- Witness for C10: a fresh backend over a disk document that contains
entry 1; `get_entry 1` still fails NotFound. -/
theorem get_entry_no_lazy_load_witness :
    FilestoreBackend.get_entry (FilestoreBackend.mkNew "db") 1 =
      .error .notFound :=
  get_entry_no_lazy_load (FilestoreBackend.mkNew "db") 1
    [("db", ⟨.jsonDoc (serializeRoot ⟨[.mk 1 0 [] []]⟩), 420⟩)]
    ⟨[.mk 1 0 [] []]⟩ rfl rfl

/-- C5: whenever `_load_or_initialize` succeeds, the scoped helper
`_load_and_store_context` (used by the `root` property) exits its scope
normally having yielded the flat entry cache, and unconditionally stores
the held root back: the final filesystem is the fault-free store of the
held root, whose serialization is then readable at the configured path —
although the scope body performed no modification at all. -/
theorem context_always_stores (b b1 : FilestoreBackend) (fs fs1 : FS)
    (t1 t2 : String)
    (h : FilestoreBackend._load_or_init b fs t1 .noFault = .ok (b1, fs1)) :
    ∃ r1, b1._root = some r1 ∧
      _load_and_store_context b fs t1 t2 .noFault =
        .ok (b1._entry_cache, b1,
          FS.write (FS.erase fs1 t2) b.path
            ⟨.jsonDoc (serializeRoot r1), permOf fs1 b.path⟩) ∧
      FS.lookup (FS.write (FS.erase fs1 t2) b.path
            ⟨.jsonDoc (serializeRoot r1), permOf fs1 b.path⟩) b.path =
        some ⟨.jsonDoc (serializeRoot r1), permOf fs1 b.path⟩ := by
  obtain ⟨hpath, r1, hr1⟩ := _load_or_init_ok b b1 fs fs1 t1 .noFault h
  refine ⟨r1, hr1, ?_, FS.lookup_write_self _ _ _⟩
  have hspec := store_noFault_spec b1 none r1 fs1 t2 hr1
  unfold _load_and_store_context
  rw [h]
  simp only [hspec, hpath]

/-- Witness for C5: a fresh backend over a valid empty document; the
context loads it and writes it back. -/
theorem context_always_stores_witness :
    ∃ r1, (⟨"db", some ⟨[]⟩, [], []⟩ : FilestoreBackend)._root = some r1 ∧
      _load_and_store_context (FilestoreBackend.mkNew "db")
        [("db", ⟨.jsonDoc (serializeRoot Root.empty), 420⟩)] "t1" "t2"
        .noFault =
        .ok ((⟨"db", some ⟨[]⟩, [], []⟩ : FilestoreBackend)._entry_cache,
          ⟨"db", some ⟨[]⟩, [], []⟩,
          FS.write (FS.erase [("db", ⟨.jsonDoc (serializeRoot Root.empty), 420⟩)] "t2") "db"
            ⟨.jsonDoc (serializeRoot r1),
             permOf [("db", ⟨.jsonDoc (serializeRoot Root.empty), 420⟩)] "db"⟩) ∧
      FS.lookup (FS.write
          (FS.erase [("db", ⟨.jsonDoc (serializeRoot Root.empty), 420⟩)] "t2") "db"
          ⟨.jsonDoc (serializeRoot r1),
           permOf [("db", ⟨.jsonDoc (serializeRoot Root.empty), 420⟩)] "db"⟩) "db" =
        some ⟨.jsonDoc (serializeRoot r1),
          permOf [("db", ⟨.jsonDoc (serializeRoot Root.empty), 420⟩)] "db"⟩ :=
  context_always_stores (FilestoreBackend.mkNew "db") ⟨"db", some ⟨[]⟩, [], []⟩
    [("db", ⟨.jsonDoc (serializeRoot Root.empty), 420⟩)]
    [("db", ⟨.jsonDoc (serializeRoot Root.empty), 420⟩)] "t1" "t2" rfl

/-- C8: during flattening the entry cache holds at most one entry per
identifier (duplicate-free keys are preserved by every flatten pass), and
insertion is first-write-wins: `maybe_add_to_cache` with an already-present
id leaves the backend — cache included — completely unchanged (a silent
skip, not an error), while with an absent id it appends the entry, which
becomes the cached value for that id. -/
theorem entry_cache_first_write_wins (b : FilestoreBackend) (e : Entry) :
    ((cacheLookup b._entry_cache e.uuid).isSome →
      FilestoreBackend.maybe_add_to_cache b (.inl e) = b) ∧
    (cacheLookup b._entry_cache e.uuid = none →
      (FilestoreBackend.maybe_add_to_cache b (.inl e))._entry_cache =
        b._entry_cache ++ [(e.uuid, e)] ∧
      cacheLookup
        (FilestoreBackend.maybe_add_to_cache b (.inl e))._entry_cache
        e.uuid = some e) ∧
    ((cacheKeys b._entry_cache).Nodup →
      (cacheKeys
        (FilestoreBackend.flatten_and_cache b e).1._entry_cache).Nodup) := by
  refine ⟨maybe_add_of_present b e, fun hnone => ⟨?_, ?_⟩,
    flatten_keys_nodup b e⟩
  · simp [FilestoreBackend.maybe_add_to_cache, hnone]
  · simp [FilestoreBackend.maybe_add_to_cache, hnone, cacheLookup_append,
      cacheLookup]

/-- Witness for C8: a cache already holding id 1 skips a second entry with
id 1; an empty cache receives it; flattening from an empty cache keeps the
keys duplicate-free. -/
theorem entry_cache_first_write_wins_witness :
    FilestoreBackend.maybe_add_to_cache ⟨"db", none, [(1, .mk 1 0 [] [])], []⟩
      (.inl (.mk 1 5 [] [])) = ⟨"db", none, [(1, .mk 1 0 [] [])], []⟩ ∧
    (FilestoreBackend.maybe_add_to_cache ⟨"db", none, [], []⟩
      (.inl (.mk 1 5 [] [])))._entry_cache = [(1, .mk 1 5 [] [])] ∧
    (cacheKeys (FilestoreBackend.flatten_and_cache ⟨"db", none, [], []⟩
      (.mk 1 0 [.mk 2 0 [] []] [])).1._entry_cache).Nodup := by
  refine ⟨(entry_cache_first_write_wins
      ⟨"db", none, [(1, .mk 1 0 [] [])], []⟩ (.mk 1 5 [] [])).1 rfl,
    ((entry_cache_first_write_wins ⟨"db", none, [], []⟩
      (.mk 1 5 [] [])).2.1 rfl).1,
    (entry_cache_first_write_wins ⟨"db", none, [], []⟩
      (.mk 1 0 [.mk 2 0 [] []] [])).2.2 List.nodup_nil⟩

/-- C9: running the flatten engine twice over an unchanged root (the
in-place-mutated entries of the first run) leaves the entry cache — keys
and values — unchanged, returns the very same entry trees, and for every
identifier the reference-link-cache set after the second run contains the
set after the first run (identifiers are only ever added, never removed). -/
theorem flatten_twice_idempotent (b : FilestoreBackend) (entries : List Entry) :
    (flattenRootEntries (flattenRootEntries b entries).1
        (flattenRootEntries b entries).2).1._entry_cache =
      (flattenRootEntries b entries).1._entry_cache ∧
    (flattenRootEntries (flattenRootEntries b entries).1
        (flattenRootEntries b entries).2).2 =
      (flattenRootEntries b entries).2 ∧
    ∀ u, linkGet (flattenRootEntries b entries).1._uuid_link_cache u ⊆
      linkGet (flattenRootEntries (flattenRootEntries b entries).1
        (flattenRootEntries b entries).2).1._uuid_link_cache u := by
  refine ⟨?_, ?_, fun u => flattenRootEntries_link_mono _ _ u⟩
  · apply flattenRootEntries_cache_unchanged
    rw [flattenRootEntries_snd, treeUuidsList_swapAllList]
    exact flattenRootEntries_all_present b entries
  · rw [flattenRootEntries_snd, flattenRootEntries_snd b entries,
      swapAllList_idem]
